import Mathlib

/-!
# Verification of the ESPN play-by-play normalization engine (`espn.py`)

Shallow embedding of the normalization core of `espn.py`:

* `_league_time`      — league constants (number of quarters, regulation
  minutes, regular quarter minutes);
* `_calc_overall_time` — elapsed overall game time for a row;
* `_adjust_time`      — clock parsing plus the quarter / end-of-quarter
  state machine;
* `_play_as_dict`     — attribution of a row's text to a side;
* `adjust_game`       — the per-contest loop over raw rows.

Conventions of the embedding:

* Python `datetime.timedelta` values are represented by their total number
  of seconds as an `Int` (the source only adds and subtracts timedeltas and
  finally renders the result with `str`; the rendered string is a
  presentation of exactly this signed number of seconds).
* Python exceptions that escape a function are represented by `Option`:
  `none` is an uncaught exception aborting the whole contest, `some` is a
  normal return.  The bare `try/except: continue` around the time-stamp
  lookup in `adjust_game` is represented by the row's clock field being
  `Option String` (`none` = the `td.time-stamp` cell is absent, the row is
  skipped).
* The BeautifulSoup row object is abstracted to `RawRow`: the fields a row
  contributes are the clock text, the extracted (upper-cased) logo
  identifier, the `game-details` text, whether the
  `combined-score no-change` cell is present, and the `combined-score`
  cell's text.
* The module-level global `away_team` set by `parse_plays` is threaded as
  an explicit argument.
* `str.split` / `re.split` on a one-character separator and `int()` are
  modelled by structurally recursive functions over the string's character
  list (`splitOnChar`, `charsToNat?`), so that every definition evaluates
  inside the kernel; the rows in scope carry unsigned digit strings, and a
  component that fails to parse models the uncaught `ValueError` /
  `IndexError`.
-/

namespace Espn

/-- Split a character list at every occurrence of the separator `c`,
keeping empty fields — the behaviour of `re.split` / `str.split` with an
explicit single-character separator.  The result is always non-empty. -/
def splitOnChar (c : Char) : List Char → List (List Char)
  | [] => [[]]
  | x :: xs =>
    match splitOnChar c xs with
    | [] => [[]]
    | y :: ys => if x = c then [] :: y :: ys else (x :: y) :: ys

/-- `int(field)` on a field produced by splitting: the field must be a
non-empty run of decimal digits (the rows in scope carry unsigned digit
strings; a field `int` cannot read is the uncaught `ValueError`). -/
def charsToNat? (cs : List Char) : Option Nat :=
  if cs ≠ [] ∧ cs.all Char.isDigit then
    some (cs.foldl (fun n ch => n * 10 + (ch.toNat - '0'.toNat)) 0)
  else none

/-- `re.split(':', time); int(new_time[0]); int(new_time[1])` of
`_adjust_time`: split the clock text on `:` and read the first two fields
as numbers.  Fewer than two fields is the uncaught `IndexError`, a
non-numeric field the uncaught `ValueError`; extra fields are ignored,
exactly as the source only reads `new_time[0]` and `new_time[1]`. -/
def parseClock (time : String) : Option (Nat × Nat) :=
  match splitOnChar ':' time.data with
  | m :: s :: _ =>
    match charsToNat? m, charsToNat? s with
    | some minutes, some seconds => some (minutes, seconds)
    | _, _ => none
  | _ => none

/-- `_league_time(league)`: number of quarters, regulation time limit in
minutes, regular quarter length in minutes.  `'nba'` gives `(4, 48, 12)`,
every other league string gives `(2, 40, 20)`. -/
def _league_time (league : String) : Nat × Nat × Nat :=
  if league = "nba" then (4, 48, 12) else (2, 40, 20)

/-- `_calc_overall_time(seconds, minutes, quarter, league)`: the elapsed
overall game time, in seconds (the value of the timedelta
`mins + previous_time` of the source).  `quarter >= num_quarters` is routed
through the overtime branch (`quarter_length = 5`,
`previous_time = regulation_time + 5 * (overtimes - 1)` minutes with
`overtimes = quarter - num_quarters`); otherwise the regulation branch
applies (`quarter_length = regular_quarter`,
`previous_time = quarter_length * (quarter - 1)` minutes).  Python's
subtractions may go negative, hence `Int` arithmetic throughout. -/
def _calc_overall_time (seconds minutes quarter : Nat) (league : String) : Int :=
  let num_quarters := (_league_time league).1
  let regulation_time := (_league_time league).2.1
  let regular_quarter := (_league_time league).2.2
  let ql_prev : Int × Int :=
    if quarter ≥ num_quarters then
      (5, ((regulation_time : Int) + 5 * (((quarter : Int) - (num_quarters : Int)) - 1)) * 60)
    else
      ((regular_quarter : Int), ((regular_quarter : Int) * ((quarter : Int) - 1)) * 60)
  let mins : Int := ql_prev.1 * 60 - ((minutes : Int) * 60 + (seconds : Int))
  mins + ql_prev.2

/-- The `time_dict` built by `_adjust_time`: keys `overall_time`,
`quarter_time`, `quarter`. -/
structure TimeDict where
  overall_time : Int
  quarter_time : String
  quarter : Nat
deriving DecidableEq, Repr

/-- `_adjust_time(time, quarter, end_of_quarter, league)`: parse the clock,
run the quarter-transition logic (`if minutes == 0 and not end_of_quarter`
sets the flag; `elif end_of_quarter and minutes > 1` advances the quarter
and clears it), then compute the overall time with the updated quarter.
Returns the time dict together with the updated `quarter` and
`end_of_quarter`. -/
def _adjust_time (time : String) (quarter : Nat) (end_of_quarter : Bool)
    (league : String) : Option (TimeDict × Nat × Bool) :=
  match parseClock time with
  | none => none
  | some (minutes, seconds) =>
    let qe : Nat × Bool :=
      if minutes = 0 ∧ end_of_quarter = false then (quarter, true)
      else if end_of_quarter = true ∧ minutes > 1 then (quarter + 1, false)
      else (quarter, end_of_quarter)
    let overall_time := _calc_overall_time seconds minutes qe.1 league
    some (⟨overall_time, time, qe.1⟩, qe.1, qe.2)

/-- `_play_as_dict(play)`, with the markup lookups abstracted: `logo` is the
upper-cased identifier the regex extracts from the `td.logo` cell, `detail`
is the `td.game-details` text, and `away_team` is the module-level global.
Result is the pair `(away_play, home_play)`: a logo different from
`away_team` puts the detail text on the home side, otherwise on the away
side. -/
def _play_as_dict (logo detail away_team : String) : String × String :=
  if logo ≠ away_team then ("", detail)
  else (detail, "")

/-- One raw row of the play-by-play table, as far as `adjust_game` reads it.
`time = none` models a row whose `td.time-stamp` cell is absent (the
`try/except: continue`).  `no_change` is the presence of the
`td.combined-score.no-change` cell; `scores` is the text of the
`td.combined-score` cell, read only when `no_change` is false. -/
structure RawRow where
  time : Option String
  logo : String
  detail : String
  no_change : Bool
  scores : String
deriving DecidableEq, Repr

/-- One normalized play: the seven keys `adjust_game` puts into the play
dict, in insertion order. -/
structure Play where
  away_play : String
  home_play : String
  overall_time : Int
  quarter_time : String
  quarter : Nat
  away_score : Int
  home_score : Int
deriving DecidableEq, Repr

/-- `away_score, home_score = scores.split('-'); int(away_score);
int(home_score)`: exactly two `-`-separated fields, each a number; anything
else is the uncaught `ValueError`. -/
def parseScores (scores : String) : Option (Int × Int) :=
  match splitOnChar '-' scores.data with
  | [a, h] =>
    match charsToNat? a, charsToNat? h with
    | some away_score, some home_score =>
      some ((away_score : Int), (home_score : Int))
    | _, _ => none
  | _ => none

/-- One iteration of the `for play in plays` loop of `adjust_game`, acting
on the loop state `(quarter, end_of_quarter, game)`.  A row without a clock
cell is skipped (`continue`) leaving the state untouched; otherwise the
time logic runs, the text is attributed, and the scores are taken from the
literal cell or carried forward from `game[-1]` (defaulting to `0-0` when
`game` is empty). -/
def adjust_game_step (away_team league : String) (st : Nat × Bool × List Play)
    (play : RawRow) : Option (Nat × Bool × List Play) :=
  match play.time with
  | none => some st
  | some time =>
    match _adjust_time time st.1 st.2.1 league with
    | none => none
    | some (time_dict, quarter, end_of_quarter) =>
      let texts := _play_as_dict play.logo play.detail away_team
      let game := st.2.2
      if play.no_change then
        let sc : Int × Int :=
          match game.getLast? with
          | some last_play => (last_play.away_score, last_play.home_score)
          | none => (0, 0)
        some (quarter, end_of_quarter,
          game ++ [⟨texts.1, texts.2, time_dict.overall_time, time_dict.quarter_time,
            time_dict.quarter, sc.1, sc.2⟩])
      else
        match parseScores play.scores with
        | none => none
        | some sc =>
          some (quarter, end_of_quarter,
            game ++ [⟨texts.1, texts.2, time_dict.overall_time, time_dict.quarter_time,
              time_dict.quarter, sc.1, sc.2⟩])

/-- The `for` loop of `adjust_game`, written as structural recursion over
the remaining rows with the loop variables as arguments. -/
def adjust_game_loop (away_team league : String) (plays : List RawRow)
    (quarter : Nat) (end_of_quarter : Bool) (game : List Play) : Option (List Play) :=
  match plays with
  | [] => some game
  | play :: rest =>
    match adjust_game_step away_team league (quarter, end_of_quarter, game) play with
    | none => none
    | some (q, e, g) => adjust_game_loop away_team league rest q e g

/-- `adjust_game(plays, league)`: `quarter = 1`, `end_of_quarter = False`,
`game = []`, then the row loop.  The global `away_team` is passed
explicitly.  `none` models an uncaught per-row exception aborting the
contest. -/
def adjust_game (plays : List RawRow) (away_team league : String) :
    Option (List Play) :=
  adjust_game_loop away_team league plays 1 false []

/-- The keys inserted into every play dict by the source, in insertion
order: `_play_as_dict` sets `away_play` and `home_play`, `adjust_game`
merges in the time dict (`overall_time`, `quarter_time`, `quarter`) and
then sets the two score keys.  No other key is ever assigned. -/
def play_dict_keys : List String :=
  ["away_play", "home_play", "overall_time", "quarter_time", "quarter",
   "away_score", "home_score"]

/-- The length, in minutes, of the quarter that `_calc_overall_time` uses
for a given quarter number: 5 from the final regulation quarter on
(the overtime branch), the regular quarter length before it. -/
def quarterLen (league : String) (q : Nat) : Nat :=
  if q ≥ (_league_time league).1 then 5 else (_league_time league).2.2

/-- The regulation-branch elapsed-time formula in the words of the spec:
`regular_period_minutes * (period - 1)` plus
(`regular_period_minutes` minus the remaining time), in seconds. -/
def regulationElapsedSpec (seconds minutes quarter : Nat) (league : String) : Int :=
  ((_league_time league).2.2 : Int) * 60 * ((quarter : Int) - 1) +
    (((_league_time league).2.2 : Int) * 60 - ((minutes : Int) * 60 + (seconds : Int)))

/-- Well-formedness of one transition between consecutive emitted plays:
either both are in the same quarter and the remaining clock did not
increase, or the quarter advanced by one and the new remaining clock lies
inside the new quarter's length.  (Real scoreboard data always satisfies
this; the engine itself does not enforce it.) -/
def stepOK (league : String) (p p' : Play) : Bool :=
  match parseClock p.quarter_time, parseClock p'.quarter_time with
  | some (m, s), some (m', s') =>
    (p'.quarter == p.quarter && decide (m' * 60 + s' ≤ m * 60 + s)) ||
    (p'.quarter == p.quarter + 1 && decide (m' < quarterLen league p'.quarter) &&
      decide (s' < 60))
  | _, _ => false

/-- Loop invariant tying the accumulated play list to the running quarter:
the last emitted play, if any, was emitted in the current quarter and its
recorded `overall_time` is `_calc_overall_time` of its own parsed clock at
that quarter. -/
def lastInv (league : String) (q : Nat) (g : List Play) : Prop :=
  ∀ p, g.getLast? = some p →
    ∃ m s, parseClock p.quarter_time = some (m, s) ∧
      p.quarter = q ∧ p.overall_time = _calc_overall_time s m q league

section Lemmas

/-- Characterisation of a successful `_adjust_time` call: the returned time
dict is determined by the parsed clock and the updated quarter, and the
`(quarter, end_of_quarter)` update is one of the three transitions of the
source's `if/elif`. -/
theorem adjust_time_cases (time : String) (q : Nat) (f : Bool) (league : String)
    (td : TimeDict) (q' : Nat) (f' : Bool) (m s : Nat)
    (hp : parseClock time = some (m, s))
    (h : _adjust_time time q f league = some (td, q', f')) :
    td = ⟨_calc_overall_time s m q' league, time, q'⟩ ∧
    ((m = 0 ∧ f = false ∧ q' = q ∧ f' = true) ∨
     (f = true ∧ m > 1 ∧ q' = q + 1 ∧ f' = false) ∨
     (¬(m = 0 ∧ f = false) ∧ ¬(f = true ∧ m > 1) ∧ q' = q ∧ f' = f)) := by
  simp only [_adjust_time, hp] at h
  split at h
  next h0 =>
    simp only [Option.some.injEq, Prod.mk.injEq] at h
    obtain ⟨hd, hq, hf⟩ := h
    subst hq
    subst hf
    exact ⟨hd.symm, Or.inl ⟨h0.1, h0.2, rfl, rfl⟩⟩
  next h0 =>
    split at h
    next h1 =>
      simp only [Option.some.injEq, Prod.mk.injEq] at h
      obtain ⟨hd, hq, hf⟩ := h
      subst hq
      subst hf
      exact ⟨hd.symm, Or.inr (Or.inl ⟨h1.1, h1.2, rfl, rfl⟩)⟩
    next h1 =>
      simp only [Option.some.injEq, Prod.mk.injEq] at h
      obtain ⟨hd, hq, hf⟩ := h
      subst hq
      subst hf
      exact ⟨hd.symm, Or.inr (Or.inr ⟨h0, h1, rfl, rfl⟩)⟩

/-- A successful `_adjust_time` leaves the quarter unchanged or advances it
by one, and never decreases it. -/
theorem adjust_time_quarter_step (time : String) (q : Nat) (f : Bool) (league : String)
    (td : TimeDict) (q' : Nat) (f' : Bool)
    (h : _adjust_time time q f league = some (td, q', f')) :
    q' = q ∨ q' = q + 1 := by
  rcases hp : parseClock time with _ | ⟨m, s⟩
  · exact absurd h (by simp [_adjust_time, hp])
  · rcases (adjust_time_cases time q f league td q' f' m s hp h).2 with
      ⟨_, _, hq, _⟩ | ⟨_, _, hq, _⟩ | ⟨_, _, hq, _⟩
    · exact Or.inl hq
    · exact Or.inr hq
    · exact Or.inl hq

/-- Case analysis of one loop iteration: either the row has no clock cell
and the whole state is unchanged, or it is emitted and appends exactly one
play whose time fields come from `_adjust_time`. -/
theorem step_cases (away_team league : String) (q : Nat) (f : Bool) (g : List Play)
    (row : RawRow) (q' : Nat) (f' : Bool) (g' : List Play)
    (h : adjust_game_step away_team league (q, f, g) row = some (q', f', g')) :
    (row.time = none ∧ q' = q ∧ f' = f ∧ g' = g) ∨
    (∃ time m s td, row.time = some time ∧ parseClock time = some (m, s) ∧
      _adjust_time time q f league = some (td, q', f') ∧
      ∃ p, g' = g ++ [p] ∧ p.quarter = q' ∧ p.quarter_time = time ∧
        p.overall_time = _calc_overall_time s m q' league ∧
        p.away_play = (_play_as_dict row.logo row.detail away_team).1 ∧
        p.home_play = (_play_as_dict row.logo row.detail away_team).2) := by
  rcases ht : row.time with _ | time
  · simp only [adjust_game_step, ht, Option.some.injEq, Prod.mk.injEq] at h
    exact Or.inl ⟨rfl, h.1.symm, h.2.1.symm, h.2.2.symm⟩
  · rcases ha : _adjust_time time q f league with _ | ⟨td2, q2, f2⟩
    · simp only [adjust_game_step, ht, ha] at h
      exact Option.noConfusion h
    · rcases hp : parseClock time with _ | ⟨m, s⟩
      · exact absurd ha (by simp [_adjust_time, hp])
      obtain ⟨htd, _⟩ := adjust_time_cases time q f league td2 q2 f2 m s hp ha
      subst htd
      simp only [adjust_game_step, ht, ha] at h
      split at h
      next hn =>
        simp only [Option.some.injEq, Prod.mk.injEq] at h
        obtain ⟨hq, hf, hg⟩ := h
        subst hq
        subst hf
        subst hg
        exact Or.inr ⟨time, m, s, _, rfl, hp, ha, _, rfl, rfl, rfl, rfl, rfl, rfl⟩
      next hn =>
        rcases hs : parseScores row.scores with _ | sc
        · simp only [hs] at h
          exact Option.noConfusion h
        · simp only [hs, Option.some.injEq, Prod.mk.injEq] at h
          obtain ⟨hq, hf, hg⟩ := h
          subst hq
          subst hf
          subst hg
          exact Or.inr ⟨time, m, s, _, rfl, hp, ha, _, rfl, rfl, rfl, rfl, rfl, rfl⟩

/-- The loop only appends to the accumulated play list. -/
theorem loop_extends (away_team league : String) :
    ∀ (plays : List RawRow) (q : Nat) (f : Bool) (g gFin : List Play),
      adjust_game_loop away_team league plays q f g = some gFin →
      ∃ t, gFin = g ++ t := by
  intro plays
  induction plays with
  | nil =>
    intro q f g gFin h
    simp only [adjust_game_loop, Option.some.injEq] at h
    exact ⟨[], by simp [h]⟩
  | cons r rest ih =>
    intro q f g gFin h
    simp only [adjust_game_loop] at h
    rcases hst : adjust_game_step away_team league (q, f, g) r with _ | ⟨q1, f1, g1⟩
    · rw [hst] at h
      exact Option.noConfusion h
    · rw [hst] at h
      rcases step_cases away_team league q f g r q1 f1 g1 hst with
        ⟨_, _, _, hg⟩ | ⟨time, m, s, td, _, _, _, p, hg, _⟩
      · subst hg
        exact ih q1 f1 g1 gFin h
      · obtain ⟨t, ht⟩ := ih q1 f1 g1 gFin h
        exact ⟨[p] ++ t, by rw [ht, hg, List.append_assoc]⟩

/-- Quarters of the emitted plays are bounded by the running quarter and
form a non-decreasing chain, preserved by the loop. -/
theorem loop_quarter_chain (away_team league : String) :
    ∀ (plays : List RawRow) (q : Nat) (f : Bool) (g gFin : List Play),
      adjust_game_loop away_team league plays q f g = some gFin →
      (∀ p ∈ g, p.quarter ≤ q) →
      List.Chain' (fun a b => a.quarter ≤ b.quarter) g →
      List.Chain' (fun a b => a.quarter ≤ b.quarter) gFin := by
  intro plays
  induction plays with
  | nil =>
    intro q f g gFin h _ hchain
    simp only [adjust_game_loop, Option.some.injEq] at h
    rwa [h] at hchain
  | cons r rest ih =>
    intro q f g gFin h hle hchain
    simp only [adjust_game_loop] at h
    rcases hst : adjust_game_step away_team league (q, f, g) r with _ | ⟨q1, f1, g1⟩
    · rw [hst] at h
      exact Option.noConfusion h
    · rw [hst] at h
      rcases step_cases away_team league q f g r q1 f1 g1 hst with
        ⟨_, hq, _, hg⟩ | ⟨time, m, s, td, _, _, ha, p, hg, hpq, _⟩
      · subst hq
        subst hg
        exact ih q1 f1 g1 gFin h hle hchain
      · have hq1 : q ≤ q1 := by
          rcases adjust_time_quarter_step time q f league td q1 f1 ha with hh | hh <;> omega
        subst hg
        refine ih q1 f1 (g ++ [p]) gFin h ?_ ?_
        · intro p2 hp2
          rcases List.mem_append.mp hp2 with hin | hin
          · exact le_trans (hle p2 hin) hq1
          · rw [List.mem_singleton.mp hin, hpq]
        · rw [List.chain'_append]
          refine ⟨hchain, List.chain'_singleton p, ?_⟩
          intro x hx y hy
          rw [List.head?_cons, Option.mem_some_iff] at hy
          subst hy
          have hxg : x ∈ g := List.mem_of_mem_getLast? hx
          rw [hpq]
          exact le_trans (hle x hxg) hq1

/-- Every play the loop emits has at least one empty text side, as does
every play already accumulated. -/
theorem loop_text_exclusive (away_team league : String) :
    ∀ (plays : List RawRow) (q : Nat) (f : Bool) (g gFin : List Play),
      adjust_game_loop away_team league plays q f g = some gFin →
      (∀ p ∈ g, p.away_play = "" ∨ p.home_play = "") →
      ∀ p ∈ gFin, p.away_play = "" ∨ p.home_play = "" := by
  intro plays
  induction plays with
  | nil =>
    intro q f g gFin h hex
    simp only [adjust_game_loop, Option.some.injEq] at h
    rw [← h]
    exact hex
  | cons r rest ih =>
    intro q f g gFin h hex
    simp only [adjust_game_loop] at h
    rcases hst : adjust_game_step away_team league (q, f, g) r with _ | ⟨q1, f1, g1⟩
    · rw [hst] at h
      exact Option.noConfusion h
    · rw [hst] at h
      rcases step_cases away_team league q f g r q1 f1 g1 hst with
        ⟨_, _, _, hg⟩ | ⟨time, m, s, td, _, _, _, p, hg, _, _, _, hap, hhp⟩
      · subst hg
        exact ih q1 f1 g1 gFin h hex
      · subst hg
        refine ih q1 f1 (g ++ [p]) gFin h ?_
        intro p2 hp2
        rcases List.mem_append.mp hp2 with hin | hin
        · exact hex p2 hin
        · rw [List.mem_singleton.mp hin]
          rw [hap, hhp]
          unfold _play_as_dict
          split
          · exact Or.inl rfl
          · exact Or.inr rfl

/-- Monotonicity of the elapsed-time formula along a well-formed
transition: staying in the quarter with a non-increasing remaining clock,
or advancing to the next quarter with a remaining clock inside the new
quarter's length, never decreases the overall time. -/
theorem calc_mono_of_ok (league : String) (q q' m s m' s' : Nat)
    (h : (q' = q ∧ m' * 60 + s' ≤ m * 60 + s) ∨
         (q' = q + 1 ∧ m' < quarterLen league q' ∧ s' < 60)) :
    _calc_overall_time s m q league ≤ _calc_overall_time s' m' q' league := by
  rcases h with ⟨hq, hr⟩ | ⟨hq, hm, hs⟩
  · subst hq
    have hri : ((m' : Int) * 60 + (s' : Int)) ≤ ((m : Int) * 60 + (s : Int)) := by
      push_cast
      omega
    simp only [_calc_overall_time]
    have := sub_le_sub_left hri ((if q' ≥ (_league_time league).1 then
      ((5 : Int), (((_league_time league).2.1 : Int) +
        5 * (((q' : Int) - ((_league_time league).1 : Int)) - 1)) * 60)
      else (((_league_time league).2.2 : Int),
        (((_league_time league).2.2 : Int) * ((q' : Int) - 1)) * 60)).1 * 60)
    linarith
  · subst hq
    by_cases hl : league = "nba"
    · subst hl
      have e : _league_time "nba" = (4, 48, 12) := by decide
      simp only [quarterLen, e] at hm
      simp only [_calc_overall_time, e]
      split_ifs at hm ⊢ <;> push_cast <;> omega
    · have e1 : (_league_time league).1 = 2 := by simp [_league_time, hl]
      have e2 : (_league_time league).2.1 = 40 := by simp [_league_time, hl]
      have e3 : (_league_time league).2.2 = 20 := by simp [_league_time, hl]
      simp only [quarterLen, e1, e3] at hm
      simp only [_calc_overall_time, e1, e2, e3]
      split_ifs at hm ⊢ <;> push_cast <;> omega

/-- The chain lemma behind C7: starting from a state whose accumulated
list satisfies `lastInv` and is `overall_time`-monotone, a successful run
whose full output satisfies `stepOK` on every consecutive pair produces an
`overall_time`-monotone output. -/
theorem loop_chain_mono (away_team league : String) :
    ∀ (plays : List RawRow) (q : Nat) (f : Bool) (g gFin : List Play),
      adjust_game_loop away_team league plays q f g = some gFin →
      lastInv league q g →
      List.Chain' (fun a b => a.overall_time ≤ b.overall_time) g →
      List.Chain' (fun a b => stepOK league a b = true) gFin →
      List.Chain' (fun a b => a.overall_time ≤ b.overall_time) gFin := by
  intro plays
  induction plays with
  | nil =>
    intro q f g gFin h _ hmono _
    simp only [adjust_game_loop, Option.some.injEq] at h
    rwa [h] at hmono
  | cons r rest ih =>
    intro q f g gFin h hinv hmono hok
    simp only [adjust_game_loop] at h
    rcases hst : adjust_game_step away_team league (q, f, g) r with _ | ⟨q1, f1, g1⟩
    · rw [hst] at h
      exact Option.noConfusion h
    rw [hst] at h
    rcases step_cases away_team league q f g r q1 f1 g1 hst with
      ⟨_, hq, _, hg⟩ | ⟨time, m', s', td, _, hp', ha, p, hg, hpq, hptime, hpov, _, _⟩
    · subst hq
      subst hg
      exact ih q1 f1 g1 gFin h hinv hmono hok
    · subst hg
      have hinv1 : lastInv league q1 (g ++ [p]) := by
        intro p2 hp2
        rw [List.getLast?_concat, Option.some.injEq] at hp2
        subst hp2
        refine ⟨m', s', ?_, hpq, ?_⟩
        · rw [hptime]
          exact hp'
        · exact hpov
      have hmono1 : List.Chain' (fun a b => a.overall_time ≤ b.overall_time) (g ++ [p]) := by
        rcases hgl : g.getLast? with _ | lp
        · rw [List.getLast?_eq_none_iff] at hgl
          subst hgl
          exact List.chain'_singleton p
        · obtain ⟨t, hext⟩ := loop_extends away_team league rest q1 f1 (g ++ [p]) gFin h
          have hok2 : List.Chain' (fun a b => stepOK league a b = true) ((g ++ [p]) ++ t) := by
            rwa [hext] at hok
          have hok3 := (List.chain'_append.mp hok2).1
          have hpair := (List.chain'_append.mp hok3).2.2 lp (by rw [hgl]; rfl) p rfl
          obtain ⟨m0, s0, hlp_parse, hlp_q, hlp_ov⟩ := hinv lp hgl
          simp only [stepOK, hlp_parse, hptime, hp', Bool.or_eq_true,
            Bool.and_eq_true, beq_iff_eq, decide_eq_true_eq] at hpair
          have hle : lp.overall_time ≤ p.overall_time := by
            rw [hlp_ov, hpov]
            refine calc_mono_of_ok league q q1 m0 s0 m' s' ?_
            rcases hpair with ⟨hqq, hrr⟩ | ⟨⟨hqq, hmm⟩, hss⟩
            · rw [hpq, hlp_q] at hqq
              exact Or.inl ⟨hqq, by omega⟩
            · rw [hpq, hlp_q] at hqq
              rw [hpq] at hmm
              exact Or.inr ⟨hqq, hmm, hss⟩
          rw [List.chain'_append]
          refine ⟨hmono, List.chain'_singleton p, ?_⟩
          intro x hx y hy
          rw [hgl, Option.mem_some_iff] at hx
          rw [List.head?_cons, Option.mem_some_iff] at hy
          subst hx
          subst hy
          exact hle
      exact ih q1 f1 (g ++ [p]) gFin h hinv1 hmono1 hok

end Lemmas

section Claims

/-- C1: for every league and period `p ≥ 1`, the elapsed game time for a
row with remaining `(m, s)` equals `previous + (period_length − remaining)`:
when `p < num_regulation_periods`, `previous = regular_period_minutes *
(p − 1)` and `period_length = regular_period_minutes`; otherwise
`previous = regulation_total_minutes + 5 * ((p − num_regulation_periods) −
1)` minutes and `period_length = 5`.  (All durations in seconds.) -/
theorem calc_overall_time_formula (league : String) (p m s : Nat) (hp : 1 ≤ p) :
    (p < (_league_time league).1 →
      _calc_overall_time s m p league =
        ((_league_time league).2.2 : Int) * 60 * ((p : Int) - 1) +
          (((_league_time league).2.2 : Int) * 60 - ((m : Int) * 60 + (s : Int)))) ∧
    ((_league_time league).1 ≤ p →
      _calc_overall_time s m p league =
        (((_league_time league).2.1 : Int) * 60 +
            5 * 60 * (((p : Int) - ((_league_time league).1 : Int)) - 1)) +
          (5 * 60 - ((m : Int) * 60 + (s : Int)))) := by
  constructor <;> intro h <;> simp only [_calc_overall_time]
  · rw [if_neg (by omega)]
    ring
  · rw [if_pos h]
    ring

/-- Witness for C1 at `league = "nba"`, `p = 2`, clock `3:30`:
elapsed `= 12*60 + (12*60 − 210) = 1230` seconds. -/
theorem calc_overall_time_formula_witness :
    1 ≤ 2 ∧ _calc_overall_time 30 3 2 "nba" = 1230 := by
  refine ⟨by norm_num, ?_⟩
  have h := (calc_overall_time_formula "nba" 2 3 30 (by norm_num)).1 (by decide)
  rw [h]
  decide

/-- C3 counterexample: the clock string `"5:75"` (seconds out of range)
does **not** fail: `_adjust_time` returns a result, silently computing
`12:00 − 5:75 = 345` seconds of elapsed time.  No `MalformedClock` error
exists anywhere in the source. -/
theorem malformed_clock_not_raised :
    _adjust_time "5:75" 1 false "nba" = some (⟨345, "5:75", 1⟩, 1, false) := by
  decide

/-- C3 amended: any clock text whose first two `:`-separated fields parse
as numbers is accepted regardless of range; `_adjust_time` always succeeds
on it and its `overall_time` is `previous + (period_length − remaining)`
evaluated at the possibly out-of-range remaining time. -/
theorem clock_range_never_checked (time : String) (q : Nat) (f : Bool)
    (league : String) (m s : Nat) (h : parseClock time = some (m, s)) :
    (_adjust_time time q f league).isSome = true ∧
    ∀ td q' f', _adjust_time time q f league = some (td, q', f') →
      td.overall_time = _calc_overall_time s m q' league := by
  constructor
  · simp only [_adjust_time, h, Option.isSome_some]
  · intro td q' f' h2
    exact congrArg TimeDict.overall_time
      (adjust_time_cases time q f league td q' f' m s h h2).1

/-- Witness for C3's amended theorem at the out-of-range clock `"5:75"`. -/
theorem clock_range_never_checked_witness :
    parseClock "5:75" = some (5, 75) ∧
    (_adjust_time "5:75" 1 false "nba").isSome = true :=
  ⟨by decide, (clock_range_never_checked "5:75" 1 false "nba" 5 75 (by decide)).1⟩

/-- C4 counterexample: a row whose logo identifier `"XXX"` matches neither
the away team `"AAA"` nor the home team: normalization succeeds and the
play's text is attributed to the **home** side; no `UnattributableTeam`
error exists in the source. -/
theorem unknown_logo_attributed_home :
    adjust_game [⟨some "10:00", "XXX", "dunk", true, ""⟩] "AAA" "nba" =
      some [⟨"", "dunk", 120, "10:00", 1, 0, 0⟩] := by
  decide

/-- C4 amended: `_play_as_dict` compares the logo identifier against the
away team only; every identifier different from the away team identifier —
including one matching neither configured team — is attributed to the home
side without error. -/
theorem logo_attribution_total (logo detail away_team : String)
    (h : logo ≠ away_team) :
    _play_as_dict logo detail away_team = ("", detail) := by
  simp [_play_as_dict, h]

/-- Witness for C4's amended theorem at a logo matching neither team. -/
theorem logo_attribution_total_witness :
    "XXX" ≠ "AAA" ∧ _play_as_dict "XXX" "dunk" "AAA" = ("", "dunk") :=
  ⟨by decide, logo_attribution_total "XXX" "dunk" "AAA" (by decide)⟩

/-- C6: an nba contest in quarter 1, a row with clock `0:00` followed by a
row with clock `11:58`: the engine advances the quarter to 2 before
computing the second row's elapsed time, which is `12:00 + (12:00 − 11:58)
= 12:02`, i.e. 722 seconds. -/
theorem quarter_advance_elapsed_example :
    (adjust_game [⟨some "0:00", "AAA", "x", true, ""⟩,
        ⟨some "11:58", "AAA", "y", true, ""⟩] "AAA" "nba").map
      (fun g => g.map (fun p => (p.quarter, p.overall_time))) =
    some [(1, 720), (2, 722)] := by
  decide

/-- C9: a row whose raw clock field is entirely absent is skipped: no play
is emitted and the whole engine state — quarter, end-of-quarter flag and
the accumulated play list whose last element carries the scores forward —
is exactly the state before the row. -/
theorem absent_clock_skips_row (away_team league : String)
    (st : Nat × Bool × List Play) (row : RawRow) (h : row.time = none) :
    adjust_game_step away_team league st row = some st := by
  simp only [adjust_game_step, h]

/-- Witness for C9 at a concrete clock-less row. -/
theorem absent_clock_skips_row_witness :
    (RawRow.mk none "LOGO" "detail" true "").time = none ∧
    adjust_game_step "AAA" "nba" (1, false, [])
      ⟨none, "LOGO", "detail", true, ""⟩ = some (1, false, []) :=
  ⟨rfl, absent_clock_skips_row "AAA" "nba" (1, false, [])
    ⟨none, "LOGO", "detail", true, ""⟩ rfl⟩

/-- C10: at `period = num_regulation_periods` the overtime branch
(`period_length = 5`, `previous = regulation_total_minutes − 5`) computes
exactly the value the spec's regulation-branch formula would give, namely
`regulation_total_minutes` minus the remaining time: the final regulation
period is correct although routed through the overtime formula. -/
theorem final_regulation_refinement (league : String) (m s : Nat)
    (hm : m < (_league_time league).2.2) (hs : s < 60) :
    _calc_overall_time s m (_league_time league).1 league =
      regulationElapsedSpec s m (_league_time league).1 league ∧
    _calc_overall_time s m (_league_time league).1 league =
      ((_league_time league).2.1 : Int) * 60 - ((m : Int) * 60 + (s : Int)) := by
  by_cases h : league = "nba"
  · subst h
    have e : _league_time "nba" = (4, 48, 12) := by decide
    refine ⟨?_, ?_⟩ <;>
      simp only [_calc_overall_time, regulationElapsedSpec, e] <;> norm_num <;> omega
  · have e1 : (_league_time league).1 = 2 := by simp [_league_time, h]
    have e2 : (_league_time league).2.1 = 40 := by simp [_league_time, h]
    have e3 : (_league_time league).2.2 = 20 := by simp [_league_time, h]
    refine ⟨?_, ?_⟩ <;>
      simp only [_calc_overall_time, regulationElapsedSpec, e1, e2, e3] <;>
      norm_num <;> omega

/-- Witness for C10 at `league = "nba"`, clock `7:30` in quarter 4:
both routes give `48*60 − 450 = 2430` seconds. -/
theorem final_regulation_refinement_witness :
    (7 : Nat) < (_league_time "nba").2.2 ∧ (30 : Nat) < 60 ∧
    _calc_overall_time 30 7 (_league_time "nba").1 "nba" =
      regulationElapsedSpec 30 7 (_league_time "nba").1 "nba" :=
  ⟨by decide, by decide,
    (final_regulation_refinement "nba" 7 30 (by decide) (by decide)).1⟩

/-- C2: the period-tracking state machine: a parsed row with `minutes = 0`
while the flag is clear sets the flag and keeps the quarter; a row with
`minutes > 1` while the flag is set advances the quarter by exactly 1 and
clears the flag; a row with `minutes = 1` changes neither; and across any
whole row sequence the emitted quarters are non-decreasing. -/
theorem period_fsm_and_monotone :
    (∀ (time : String) (q : Nat) (f : Bool) (league : String) (m s : Nat)
      (td : TimeDict) (q' : Nat) (f' : Bool),
      parseClock time = some (m, s) →
      _adjust_time time q f league = some (td, q', f') →
      ((m = 0 ∧ f = false) → q' = q ∧ f' = true) ∧
      ((m > 1 ∧ f = true) → q' = q + 1 ∧ f' = false) ∧
      (m = 1 → q' = q ∧ f' = f) ∧
      q ≤ q') ∧
    (∀ (plays : List RawRow) (away_team league : String) (out : List Play),
      adjust_game plays away_team league = some out →
      List.Chain' (fun a b => a.quarter ≤ b.quarter) out) := by
  constructor
  · intro time q f league m s td q' f' hp h
    rcases (adjust_time_cases time q f league td q' f' m s hp h).2 with
      ⟨hm, hf, hq, hff⟩ | ⟨hf, hm, hq, hff⟩ | ⟨hn0, hn1, hq, hff⟩
    · refine ⟨fun _ => ⟨hq, hff⟩, fun hc => ?_, fun hc => ?_, by omega⟩
      · rw [hf] at hc
        exact Bool.noConfusion hc.2
      · exact absurd hc (by omega)
    · refine ⟨fun hc => ?_, fun _ => ⟨hq, hff⟩, fun hc => ?_, by omega⟩
      · exact absurd hc.1 (by omega)
      · exact absurd hc (by omega)
    · refine ⟨fun hc => absurd hc hn0, fun hc => absurd ⟨hc.2, hc.1⟩ hn1,
        fun _ => ⟨hq, hff⟩, by omega⟩
  · intro plays away_team league out h
    exact loop_quarter_chain away_team league plays 1 false [] out h
      (by intro p hp; exact absurd hp (List.not_mem_nil p)) List.chain'_nil

/-- Witness for C2: the `0:30` row sets the flag without advancing, and a
concrete two-row contest has non-decreasing quarters. -/
theorem period_fsm_and_monotone_witness :
    parseClock "0:30" = some (0, 30) ∧
    _adjust_time "0:30" 1 false "nba" = some (⟨690, "0:30", 1⟩, 1, true) ∧
    (1 = 1 ∧ (true : Bool) = true) ∧
    List.Chain' (fun a b : Play => a.quarter ≤ b.quarter)
      [⟨"x", "", 690, "0:30", 1, 0, 0⟩, ⟨"y", "", 722, "11:58", 2, 0, 0⟩] :=
  ⟨by decide, by decide,
    (period_fsm_and_monotone.1 "0:30" 1 false "nba" 0 30 ⟨690, "0:30", 1⟩ 1 true
      (by decide) (by decide)).1 ⟨rfl, rfl⟩,
    period_fsm_and_monotone.2
      [⟨some "0:30", "AAA", "x", true, ""⟩, ⟨some "11:58", "AAA", "y", true, ""⟩]
      "AAA" "nba"
      [⟨"x", "", 690, "0:30", 1, 0, 0⟩, ⟨"y", "", 722, "11:58", 2, 0, 0⟩]
      (by decide)⟩

/-- C5: score resolution of one emitted row: a literal `a-h` score cell
yields `away_score = a` and `home_score = h`; a no-change row emitted while
no play has been emitted yet yields `(0, 0)`; a no-change row with at least
one previously emitted play copies the previous play's scores. -/
theorem score_resolution (away_team league : String) (q : Nat) (f : Bool)
    (game : List Play) (row : RawRow) (q' : Nat) (f' : Bool) (game' : List Play)
    (time : String) (td : TimeDict) (q2 : Nat) (f2 : Bool)
    (ht : row.time = some time)
    (ha : _adjust_time time q f league = some (td, q2, f2))
    (h : adjust_game_step away_team league (q, f, game) row = some (q', f', game')) :
    (row.no_change = false → ∀ a b, parseScores row.scores = some (a, b) →
      game' = game ++ [⟨(_play_as_dict row.logo row.detail away_team).1,
        (_play_as_dict row.logo row.detail away_team).2,
        td.overall_time, td.quarter_time, td.quarter, a, b⟩]) ∧
    (row.no_change = true → game = [] →
      game' = game ++ [⟨(_play_as_dict row.logo row.detail away_team).1,
        (_play_as_dict row.logo row.detail away_team).2,
        td.overall_time, td.quarter_time, td.quarter, 0, 0⟩]) ∧
    (row.no_change = true → ∀ lp, game.getLast? = some lp →
      game' = game ++ [⟨(_play_as_dict row.logo row.detail away_team).1,
        (_play_as_dict row.logo row.detail away_team).2,
        td.overall_time, td.quarter_time, td.quarter,
        lp.away_score, lp.home_score⟩]) := by
  simp only [adjust_game_step, ht, ha] at h
  refine ⟨?_, ?_, ?_⟩
  · intro hn a b hs
    simp only [hn, Bool.false_eq_true, if_false, hs, Option.some.injEq,
      Prod.mk.injEq] at h
    exact h.2.2.symm
  · intro hn hg
    subst hg
    simp only [hn, if_true, List.getLast?_nil, Option.some.injEq,
      Prod.mk.injEq] at h
    exact h.2.2.symm
  · intro hn lp hlp
    simp only [hn, if_true, hlp, Option.some.injEq, Prod.mk.injEq] at h
    exact h.2.2.symm

/-- Witness for C5 at a literal `12-34` score row processed from the empty
state: the emitted play carries `away_score = 12`, `home_score = 34`. -/
theorem score_resolution_witness :
    (RawRow.mk (some "10:00") "AAA" "x" false "12-34").time = some "10:00" ∧
    _adjust_time "10:00" 1 false "nba" = some (⟨120, "10:00", 1⟩, 1, false) ∧
    adjust_game_step "AAA" "nba" (1, false, [])
      ⟨some "10:00", "AAA", "x", false, "12-34"⟩ =
      some (1, false, [⟨"x", "", 120, "10:00", 1, 12, 34⟩]) ∧
    ([⟨"x", "", 120, "10:00", 1, 12, 34⟩] : List Play) =
      [] ++ [⟨"x", "", 120, "10:00", 1, 12, 34⟩] :=
  ⟨rfl, by decide, by decide,
    (score_resolution "AAA" "nba" 1 false [] ⟨some "10:00", "AAA", "x", false, "12-34"⟩
      1 false [⟨"x", "", 120, "10:00", 1, 12, 34⟩] "10:00" ⟨120, "10:00", 1⟩ 1 false
      rfl (by decide) (by decide)).1 rfl 12 34 (by decide)⟩

/-- C8: in every successfully normalized contest each play has at most one
non-empty text side; but the claimed `is_official` field does not exist:
the play dict carries exactly the keys of `play_dict_keys`, and neither
`is_official` nor the `official_play` key promised by the source's own
docstrings is among them. -/
theorem play_texts_exclusive_no_official_key :
    (∀ (plays : List RawRow) (away_team league : String) (out : List Play),
      adjust_game plays away_team league = some out →
      ∀ p ∈ out, p.away_play = "" ∨ p.home_play = "") ∧
    "is_official" ∉ play_dict_keys ∧ "official_play" ∉ play_dict_keys := by
  refine ⟨?_, by decide, by decide⟩
  intro plays away_team league out h
  exact loop_text_exclusive away_team league plays 1 false [] out h
    (by intro p hp; exact absurd hp (List.not_mem_nil p))

/-- Witness for C8 at a one-row contest. -/
theorem play_texts_exclusive_no_official_key_witness :
    adjust_game [⟨some "10:00", "AAA", "x", true, ""⟩] "AAA" "nba" =
      some [⟨"x", "", 120, "10:00", 1, 0, 0⟩] ∧
    ((Play.mk "x" "" 120 "10:00" 1 0 0).away_play = "" ∨
      (Play.mk "x" "" 120 "10:00" 1 0 0).home_play = "") :=
  ⟨by decide,
    play_texts_exclusive_no_official_key.1
      [⟨some "10:00", "AAA", "x", true, ""⟩] "AAA" "nba"
      [⟨"x", "", 120, "10:00", 1, 0, 0⟩] (by decide)
      ⟨"x", "", 120, "10:00", 1, 0, 0⟩ (List.mem_singleton.mpr rfl)⟩

/-- C7 counterexample: a two-row sequence that normalizes without error
whose elapsed times strictly decrease — the clock jumps from `5:00` back
up to `8:00` inside quarter 1, so the second play's `overall_time` (240 s)
is smaller than the first's (420 s).  The engine does not enforce
monotonicity for arbitrary input. -/
theorem overall_time_not_monotone :
    adjust_game [⟨some "5:00", "AAA", "x", true, ""⟩,
        ⟨some "8:00", "AAA", "y", true, ""⟩] "AAA" "nba" =
      some [⟨"x", "", 420, "5:00", 1, 0, 0⟩, ⟨"y", "", 240, "8:00", 1, 0, 0⟩] ∧
    ¬ List.Chain' (fun a b : Play => a.overall_time ≤ b.overall_time)
      [⟨"x", "", 420, "5:00", 1, 0, 0⟩, ⟨"y", "", 240, "8:00", 1, 0, 0⟩] := by
  constructor
  · decide
  · intro hc
    rw [List.chain'_cons] at hc
    exact absurd hc.1 (by decide)

/-- C7 amended: for every input row sequence that normalizes without error
and whose emitted plays make a well-formed game trace — each consecutive
pair either stays in the same quarter with a non-increasing remaining
clock, or advances the quarter by one with the new remaining clock inside
the new quarter's length (`stepOK`) — the `overall_time` values are
non-decreasing across the whole output sequence. -/
theorem overall_time_monotone_cond (plays : List RawRow) (away_team league : String)
    (out : List Play)
    (h : adjust_game plays away_team league = some out)
    (hok : List.Chain' (fun a b => stepOK league a b = true) out) :
    List.Chain' (fun a b => a.overall_time ≤ b.overall_time) out :=
  loop_chain_mono away_team league plays 1 false [] out h
    (fun p hp => absurd hp (by simp)) List.chain'_nil hok

/-- Witness for C7's amended theorem on a concrete well-formed two-row
contest (`10:00` then `9:30` in quarter 1). -/
theorem overall_time_monotone_cond_witness :
    adjust_game [⟨some "10:00", "AAA", "x", true, ""⟩,
        ⟨some "9:30", "AAA", "y", true, ""⟩] "AAA" "nba" =
      some [⟨"x", "", 120, "10:00", 1, 0, 0⟩, ⟨"y", "", 150, "9:30", 1, 0, 0⟩] ∧
    List.Chain' (fun a b => stepOK "nba" a b = true)
      [⟨"x", "", 120, "10:00", 1, 0, 0⟩, ⟨"y", "", 150, "9:30", 1, 0, 0⟩] ∧
    List.Chain' (fun a b : Play => a.overall_time ≤ b.overall_time)
      [⟨"x", "", 120, "10:00", 1, 0, 0⟩, ⟨"y", "", 150, "9:30", 1, 0, 0⟩] :=
  ⟨by decide,
    List.chain'_cons.mpr ⟨by decide, List.chain'_singleton _⟩,
    overall_time_monotone_cond
      [⟨some "10:00", "AAA", "x", true, ""⟩, ⟨some "9:30", "AAA", "y", true, ""⟩]
      "AAA" "nba"
      [⟨"x", "", 120, "10:00", 1, 0, 0⟩, ⟨"y", "", 150, "9:30", 1, 0, 0⟩]
      (by decide) (List.chain'_cons.mpr ⟨by decide, List.chain'_singleton _⟩)⟩

end Claims

end Espn
